import Mathlib

/-
Verification of the credential and session security core of the
Secure-User-Profile-System repository (LenDen).

The development shallowly embeds the relevant JavaScript sources:
  * src/backend/src/utils/encryption.js  (AES-256-CBC field encryption)
  * src/backend/src/utils/password.js    (bcrypt wrappers)
  * src/backend/src/utils/jwt.js         (token issue / verify)
  * src/backend/src/models/User.js       (lockout counters, pre-save hook)
  * src/backend/src/controllers/authController.js (login flow)

Strings that the JavaScript code manipulates byte-wise are modelled as
lists: plaintexts and ciphertexts as lists of bytes (the UTF-8 encoding
of the JavaScript string), textual blobs as lists of characters, and
string char codes as lists of naturals.  The AES-256 block cipher and
the bcrypt primitive are third-party primitives; they are modelled as
explicit function parameters, constrained only by the properties the
surrounding code relies on (a block cipher maps 16-byte blocks to
16-byte blocks and decryption inverts encryption).  Everything else is
translated statement by statement from the JavaScript source.
-/

namespace LenDen

/-- A byte, as produced by Node buffers. -/
abbrev Byte := Fin 256

/-- Error kinds of the encryption utility, discriminated in the source by
the message of the thrown Error: the guard before the try block throws
the plain message Invalid encrypted text format (the FormatError of the
spec), while everything raised inside the try block of decrypt is
re-thrown as Failed to decrypt data (the DecryptionError of the spec). -/
inductive CryptErr where
  | formatError
  | decryptionError
deriving DecidableEq, Repr

/-! ### Hex encoding, as performed by Buffer.toString and Buffer.from -/

/-- Lower-case hex digit for a nibble, as in Node hex encoding. -/
def hexDigit : Nat → Char
  | 0 => '0' | 1 => '1' | 2 => '2' | 3 => '3'
  | 4 => '4' | 5 => '5' | 6 => '6' | 7 => '7'
  | 8 => '8' | 9 => '9' | 10 => 'a' | 11 => 'b'
  | 12 => 'c' | 13 => 'd' | 14 => 'e' | 15 => 'f'
  | _ => '0'

/-- Value of a hex digit character (decimal digits, then the lower-case
and the upper-case letter ranges, as Buffer.from accepts both cases);
none for a non-hex character. -/
def hexVal (c : Char) : Option (Fin 16) :=
  if hd : 48 ≤ c.toNat ∧ c.toNat ≤ 57 then some ⟨c.toNat - 48, by omega⟩
  else if hl : 97 ≤ c.toNat ∧ c.toNat ≤ 102 then some ⟨c.toNat - 87, by omega⟩
  else if hu : 65 ≤ c.toNat ∧ c.toNat ≤ 70 then some ⟨c.toNat - 55, by omega⟩
  else none

/-- Two-character hex rendering of one byte. -/
def byteToHex (b : Byte) : List Char :=
  [hexDigit (b.val / 16), hexDigit (b.val % 16)]

/-- Hex rendering of a byte string, as in buf.toString with hex. -/
def bytesToHex (bs : List Byte) : List Char :=
  (bs.map byteToHex).flatten

/-- Hex parsing of a character string, as in Buffer.from with hex:
bytes are decoded pairwise and decoding stops at the first pair that is
not two hex digits (an incomplete trailing pair is dropped as well). -/
def hexToBytes : List Char → List Byte
  | c1 :: c2 :: rest =>
    match hexVal c1, hexVal c2 with
    | some h, some l => ⟨h.val * 16 + l.val, by omega⟩ :: hexToBytes rest
    | _, _ => []
  | _ => []

/-! ### Splitting on the colon separator, as in String.prototype.split -/

/-- Splitting a character list at every colon, mirroring the JavaScript
expression encryptedText.split(String.fromCharCode(58)). -/
def splitOnColon : List Char → List (List Char)
  | [] => [[]]
  | c :: rest =>
    if c = ':' then [] :: splitOnColon rest
    else
      match splitOnColon rest with
      | [] => [[c]]
      | p :: ps => (c :: p) :: ps

/-! ### PKCS#7 padding and 16-byte blocks, as applied by the aes-256-cbc
mode of the Node crypto module -/

/-- Number of padding bytes PKCS#7 appends to a message of length n
with 16-byte blocks; always between 1 and 16. -/
def padLen (n : Nat) : Nat := 16 - n % 16

/-- PKCS#7 padding of a byte string to a multiple of the block size. -/
def pad16 (bs : List Byte) : List Byte :=
  bs ++ List.replicate (padLen bs.length) ⟨padLen bs.length, by unfold padLen; omega⟩

/-- PKCS#7 unpadding: the final block cipher step of decryption checks
that the last byte n is between 1 and 16 and that the last n bytes all
equal n, and strips them; otherwise it reports a bad decrypt. -/
def unpad16 (l : List Byte) : Option (List Byte) :=
  match l.getLast? with
  | none => none
  | some b =>
    if 1 ≤ b.val ∧ b.val ≤ 16 ∧ b.val ≤ l.length ∧
        (l.drop (l.length - b.val)).all (fun x => x = b) then
      some (l.take (l.length - b.val))
    else none

/-- Grouping a byte string into blocks of 16 bytes (the last group may
be shorter when the length is not a multiple of 16). -/
def chunks16 (l : List Byte) : List (List Byte) :=
  if h : l = [] then []
  else l.take 16 :: chunks16 (l.drop 16)
termination_by l.length
decreasing_by
  simp only [List.length_drop]
  have : 0 < l.length := List.length_pos.mpr h
  omega

/-- Byte-wise xor of two byte strings (truncated to the shorter one). -/
def zipXor (a b : List Byte) : List Byte :=
  List.zipWith (fun x y => (⟨x.val ^^^ y.val,
    Nat.xor_lt_two_pow (n := 8) x.isLt y.isLt⟩ : Byte)) a b

/-- CBC encryption of a list of plaintext blocks with block cipher E and
preceding ciphertext block prev (initially the IV), returning the list
of ciphertext blocks. -/
def cbcEnc (E : List Byte → List Byte) (prev : List Byte) :
    List (List Byte) → List (List Byte)
  | [] => []
  | b :: rest => E (zipXor b prev) :: cbcEnc E (E (zipXor b prev)) rest

/-- CBC decryption of a list of ciphertext blocks with block decipher D
and preceding ciphertext block prev (initially the IV). -/
def cbcDec (D : List Byte → List Byte) (prev : List Byte) :
    List (List Byte) → List (List Byte)
  | [] => []
  | c :: rest => zipXor (D c) prev :: cbcDec D c rest

/-! ### encrypt and decrypt from src/backend/src/utils/encryption.js

The AES-256 block cipher under the fixed process key is passed in as
the function E (encryption direction) or D (decryption direction);
plaintexts are the UTF-8 bytes of the JavaScript string and the random
IV drawn by crypto.randomBytes(16) is an explicit argument. -/

/-- The encrypt function of encryption.js: reject empty input, then CBC
encrypt the padded plaintext and return hex(iv) ++ colon ++ hex(ct). -/
def encrypt (E : List Byte → List Byte) (text : List Byte) (iv : List Byte) :
    Except CryptErr (List Char) :=
  if text = [] then .error .formatError
  else .ok (bytesToHex iv ++ ':' :: bytesToHex (cbcEnc E iv (chunks16 (pad16 text))).flatten)

/-- The decrypt function of encryption.js.  The guard before the try
block rejects an empty input or an input without a colon with the
format error.  Inside the try block the input is split on colons and
the first two parts are taken (the JavaScript destructuring of
split), both must be non-empty, the IV must decode to 16 bytes
(createDecipheriv), the ciphertext must decode to a non-empty multiple
of 16 bytes (decipher.final), and the CBC decryption must unpad
cleanly; every failure inside the try block is re-thrown as the
decryption error. -/
def decrypt (D : List Byte → List Byte) (blob : List Char) :
    Except CryptErr (List Byte) :=
  if blob = [] ∨ ':' ∉ blob then .error .formatError
  else
    let parts := splitOnColon blob
    let ivHex := parts.getD 0 []
    let ctHex := parts.getD 1 []
    if ivHex = [] ∨ ctHex = [] then .error .decryptionError
    else
      let iv := hexToBytes ivHex
      if iv.length ≠ 16 then .error .decryptionError
      else
        let ct := hexToBytes ctHex
        if ct = [] ∨ ct.length % 16 ≠ 0 then .error .decryptionError
        else
          match unpad16 (cbcDec D iv (chunks16 ct)).flatten with
          | some p => .ok p
          | none => .error .decryptionError

/-- The isValidEncryptedFormat function of encryption.js: the string
must contain a colon and split into exactly two parts. -/
def isValidEncryptedFormat (s : List Char) : Bool :=
  decide (':' ∈ s) && (splitOnColon s).length == 2

/-- The secureCompare function of encryption.js, over the char-code
sequences of the two JavaScript strings: empty or length-mismatched
inputs compare false, otherwise the xor of all corresponding char
codes is accumulated with a bitwise or and compared with zero. -/
def secureCompare (a b : List Nat) : Bool :=
  if a = [] ∨ b = [] ∨ a.length ≠ b.length then false
  else decide ((List.zipWith (fun x y => x ^^^ y) a b).foldl (fun r x => r ||| x) 0 = 0)

/-! ### comparePassword from src/backend/src/utils/password.js

The bcrypt.compare primitive is passed in as an oracle that may either
return a boolean or fail; the wrapper returns false for empty inputs
and converts every oracle failure into false, so that it is a total
boolean function (it never throws). -/

/-- The comparePassword function of password.js over char lists. -/
def comparePassword (bc : List Char → List Char → Except Unit Bool)
    (password hashedPassword : List Char) : Bool :=
  if password = [] ∨ hashedPassword = [] then false
  else
    match bc password hashedPassword with
    | .ok b => b
    | .error _ => false

/-! ### The user record and lockout machinery from src/backend/src/models/User.js -/

/-- Account status enumeration of the user schema. -/
inductive Status where
  | active
  | inactive
  | suspended
deriving DecidableEq, Repr

/-- The fields of a user document that the lockout machinery and the
login flow read and write.  Timestamps are milliseconds since the
epoch, as produced by Date.now(). -/
structure UserRec where
  loginAttempts : Nat
  lockUntil : Option Nat
  status : Status
deriving DecidableEq, Repr

/-- The isLocked virtual of User.js: the lock timestamp is present and
strictly in the future. -/
def isLocked (u : UserRec) (now : Nat) : Bool :=
  match u.lockUntil with
  | some t => decide (now < t)
  | none => false

/-- Lock duration of User.js: two hours in milliseconds. -/
def lockDuration : Nat := 2 * 60 * 60 * 1000

/-- The unconditional part of incLoginAttempts: increment the counter
and, when the new value reaches 5 and the account is not currently
locked, set the lock two hours ahead. -/
def incCore (u : UserRec) (now : Nat) : UserRec :=
  if u.loginAttempts + 1 ≥ 5 ∧ ¬ isLocked u now then
    { u with loginAttempts := u.loginAttempts + 1, lockUntil := some (now + lockDuration) }
  else
    { u with loginAttempts := u.loginAttempts + 1 }

/-- The incLoginAttempts method of User.js: when a previous lock has
expired (strictly in the past), restart the counter at 1 and drop the
lock; otherwise increment, possibly locking. -/
def incLoginAttempts (u : UserRec) (now : Nat) : UserRec :=
  match u.lockUntil with
  | some t =>
    if t < now then { u with loginAttempts := 1, lockUntil := none }
    else incCore u now
  | none => incCore u now

/-- The resetLoginAttempts method of User.js: unset the counter and the
lock timestamp. -/
def resetLoginAttempts (u : UserRec) : UserRec :=
  { u with loginAttempts := 0, lockUntil := none }

/-- The pre-save hook of User.js, restricted to the aadhaarNumber field
(for a document whose aadhaarNumber is new or modified): the value is
encrypted only when it does not already contain a colon.  The encoding
of the field string into bytes (UTF-8) is the parameter enc, and the
cipher and IV are those of encrypt. -/
def preSaveAadhaar (E : List Byte → List Byte) (enc : List Char → List Byte)
    (iv : List Byte) (a : List Char) : Except CryptErr (List Char) :=
  if ':' ∈ a then .ok a
  else encrypt E (enc a) iv

/-! ### The login flow from src/backend/src/controllers/authController.js -/

/-- Outcomes of the login controller, one per response site. -/
inductive LoginOutcome where
  | notFound
  | locked
  | inactive
  | wrongPassword
  | success
deriving DecidableEq, Repr

/-- HTTP status code of each login response site. -/
def statusCodeOf : LoginOutcome → Nat
  | .notFound => 401
  | .locked => 423
  | .inactive => 401
  | .wrongPassword => 401
  | .success => 200

/-- Response message of each login response site, verbatim from
authController.js. -/
def messageOf : LoginOutcome → String
  | .notFound => "Invalid email or password"
  | .locked => "Account is temporarily locked due to too many failed login attempts. Please try again later."
  | .inactive => "Account is inactive. Please contact support."
  | .wrongPassword => "Incorrect Password!"
  | .success => "Login successful"

/-- The login controller applied to a found user: check the lock, check
the status, verify the password (the boolean pwOk stands for the
outcome of user.comparePassword), incrementing or resetting the
attempt counter accordingly.  Returns the outcome together with the
persisted user record. -/
def login (u : UserRec) (pwOk : Bool) (now : Nat) : LoginOutcome × UserRec :=
  if isLocked u now then (.locked, u)
  else if u.status ≠ Status.active then (.inactive, u)
  else if ¬ pwOk then (.wrongPassword, incLoginAttempts u now)
  else (.success, if u.loginAttempts > 0 then resetLoginAttempts u else u)

/-- The full login controller including the user lookup: a missing
account is rejected before any further check. -/
def loginFlow (found : Option UserRec) (pwOk : Bool) (now : Nat) :
    LoginOutcome × Option UserRec :=
  match found with
  | none => (.notFound, none)
  | some u => ((login u pwOk now).1, some (login u pwOk now).2)

/-- One failed login attempt at time now: the user record persisted by
the login controller when the password check fails. -/
def failStep (now : Nat) (u : UserRec) : UserRec := (login u false now).2

/-! ### Tokens from src/backend/src/utils/jwt.js

The jsonwebtoken primitive is embedded with the claims it is given by
jwt.js: sign places the payload together with issuer and audience in a
signed token, and verify checks, in the order of the jsonwebtoken
verify implementation, the signature, then expiry, then audience, then
issuer.  Times are seconds since the epoch, as in the iat and exp
claims. -/

/-- The process-wide signing secret of jwt.js. -/
def jwtSecret : String := "fallback-secret-change-in-production"

/-- Claims carried in the payload of a token. -/
structure Claims where
  userId : String
  email : Option String
  type : Option String
  iat : Nat
  exp : Nat
deriving DecidableEq, Repr

/-- A signed token: payload claims plus the issuer, audience and the
key the MAC was computed with. -/
structure Token where
  claims : Claims
  issuer : String
  audience : String
  key : String
deriving DecidableEq, Repr

/-- Error classes of jsonwebtoken verify: TokenExpiredError and
JsonWebTokenError. -/
inductive VerifyErr where
  | expired
  | invalid
deriving DecidableEq, Repr

/-- The jsonwebtoken verify call: signature, then expiry (the token is
expired when the clock has reached exp), then audience, then issuer. -/
def jwtVerify (t : Token) (key iss aud : String) (now : Nat) :
    Except VerifyErr Claims :=
  if t.key ≠ key then .error .invalid
  else if t.claims.exp ≤ now then .error .expired
  else if t.audience ≠ aud then .error .invalid
  else if t.issuer ≠ iss then .error .invalid
  else .ok t.claims

/-- The generateToken function of jwt.js: access token with a 24 hour
lifetime, issuer lenden-app and audience lenden-users. -/
def generateToken (userId email : String) (now : Nat) : Token :=
  { claims := { userId := userId, email := some email, type := none,
                iat := now, exp := now + 86400 },
    issuer := "lenden-app", audience := "lenden-users", key := jwtSecret }

/-- The generateRefreshToken function of jwt.js: refresh token with a 7
day lifetime, audience lenden-refresh and a type claim refresh. -/
def generateRefreshToken (userId : String) (now : Nat) : Token :=
  { claims := { userId := userId, email := none, type := some "refresh",
                iat := now, exp := now + 604800 },
    issuer := "lenden-app", audience := "lenden-refresh", key := jwtSecret }

/-- Error kinds of the jwt.js wrappers, discriminated in the source by
the message of the thrown Error: expired for TokenExpiredError,
invalid for JsonWebTokenError, and verifyFailed for the generic
re-thrown message (in particular for the type-claim check of
verifyRefreshToken, whose own throw is caught by its catch block). -/
inductive TokenErr where
  | expired
  | invalid
  | verifyFailed
deriving DecidableEq, Repr

/-- The verifyToken function of jwt.js: verify against issuer
lenden-app and audience lenden-users. -/
def verifyToken (t : Token) (now : Nat) : Except TokenErr Claims :=
  match jwtVerify t jwtSecret "lenden-app" "lenden-users" now with
  | .ok c => .ok c
  | .error .expired => .error .expired
  | .error .invalid => .error .invalid

/-- The verifyRefreshToken function of jwt.js: verify against issuer
lenden-app and audience lenden-refresh, then require the type claim to
equal refresh (that failure surfaces through the catch-all branch of
the catch block). -/
def verifyRefreshToken (t : Token) (now : Nat) : Except TokenErr Claims :=
  match jwtVerify t jwtSecret "lenden-app" "lenden-refresh" now with
  | .ok c => if c.type = some "refresh" then .ok c else .error .verifyFailed
  | .error .expired => .error .expired
  | .error .invalid => .error .invalid

/-! ## Helper lemmas about the hex codec and colon splitting -/

theorem hexDigit_ne_colon (n : Nat) : hexDigit n ≠ ':' := by
  unfold hexDigit
  split <;> decide

theorem hexVal_hexDigit : ∀ n : Fin 16, hexVal (hexDigit n.val) = some n := by
  decide

theorem colon_notMem_bytesToHex (bs : List Byte) : ':' ∉ bytesToHex bs := by
  induction bs with
  | nil => simp [bytesToHex]
  | cons b bs ih =>
    intro hmem
    simp only [bytesToHex, List.map_cons, List.flatten_cons, List.mem_append, byteToHex,
      List.mem_cons, List.not_mem_nil, or_false] at hmem
    rcases hmem with (h | h) | h
    · exact hexDigit_ne_colon _ h.symm
    · exact hexDigit_ne_colon _ h.symm
    · exact ih h

theorem bytesToHex_length (bs : List Byte) : (bytesToHex bs).length = 2 * bs.length := by
  induction bs with
  | nil => rfl
  | cons b bs ih =>
    simp only [bytesToHex, List.map_cons, List.flatten_cons, List.length_append,
      byteToHex, List.length_cons, List.length_nil, List.length_map] at *
    omega

theorem bytesToHex_ne_nil {bs : List Byte} (h : bs ≠ []) : bytesToHex bs ≠ [] := by
  intro hc
  have hl := bytesToHex_length bs
  rw [hc] at hl
  simp only [List.length_nil] at hl
  exact h (List.length_eq_zero.mp (by omega))

theorem hexToBytes_bytesToHex (bs : List Byte) : hexToBytes (bytesToHex bs) = bs := by
  induction bs with
  | nil => rfl
  | cons b bs ih =>
    have hd : b.val / 16 < 16 := by
      have := b.isLt
      exact Nat.div_lt_of_lt_mul (by omega)
    have hm : b.val % 16 < 16 := Nat.mod_lt _ (by omega)
    show hexToBytes (hexDigit (b.val / 16) :: hexDigit (b.val % 16) :: bytesToHex bs) = b :: bs
    rw [hexToBytes, hexVal_hexDigit ⟨b.val / 16, hd⟩, hexVal_hexDigit ⟨b.val % 16, hm⟩]
    simp only [ih, List.cons.injEq, and_true]
    apply Fin.ext
    simp [Nat.div_add_mod']

theorem splitOnColon_of_not_mem {l : List Char} (h : ':' ∉ l) : splitOnColon l = [l] := by
  induction l with
  | nil => rfl
  | cons c rest ih =>
    have hc : ¬ (c = ':') := fun hcc => h (by simp [hcc])
    have hr : ':' ∉ rest := fun hm => h (List.mem_cons_of_mem _ hm)
    simp only [splitOnColon, if_neg hc, ih hr]

theorem splitOnColon_append {a : List Char} (h : ':' ∉ a) (b : List Char) :
    splitOnColon (a ++ ':' :: b) = a :: splitOnColon b := by
  induction a with
  | nil => simp [splitOnColon]
  | cons c a ih =>
    have hc : ¬ (c = ':') := fun hcc => h (by simp [hcc])
    have ha : ':' ∉ a := fun hm => h (List.mem_cons_of_mem _ hm)
    simp only [List.cons_append, splitOnColon, if_neg hc, List.append_eq, ih ha]

/-! ## Helper lemmas about padding, blocking and CBC -/

theorem getLast?_replicate (n : Nat) (x : Byte) (h : 0 < n) :
    (List.replicate n x).getLast? = some x := by
  cases n with
  | zero => omega
  | succ m => rw [List.replicate_succ', List.getLast?_concat]

theorem pad16_length (bs : List Byte) :
    (pad16 bs).length = bs.length + padLen bs.length := by
  simp [pad16]

theorem pad16_mod (bs : List Byte) : (pad16 bs).length % 16 = 0 := by
  rw [pad16_length]
  unfold padLen
  omega

theorem pad16_ne_nil (bs : List Byte) : pad16 bs ≠ [] := by
  intro hc
  have hl := pad16_length bs
  rw [hc] at hl
  simp only [List.length_nil] at hl
  unfold padLen at hl
  omega

theorem unpad16_pad16 (bs : List Byte) : unpad16 (pad16 bs) = some bs := by
  have h1 : 1 ≤ padLen bs.length := by unfold padLen; omega
  have h16 : padLen bs.length ≤ 16 := by unfold padLen; omega
  unfold unpad16 pad16
  rw [List.getLast?_append, getLast?_replicate _ _ h1]
  simp only [Option.or]
  rw [if_pos]
  · congr 1
    rw [List.length_append, List.length_replicate]
    have : bs.length + padLen bs.length - padLen bs.length = bs.length := by omega
    rw [this, List.take_left]
  · refine ⟨h1, h16, ?_, ?_⟩
    · rw [List.length_append, List.length_replicate]; omega
    · rw [List.length_append, List.length_replicate]
      have : bs.length + padLen bs.length - padLen bs.length = bs.length := by omega
      rw [this, List.drop_left]
      simp [List.all_eq_true, List.mem_replicate]

theorem chunks16_nil : chunks16 [] = [] := by
  rw [chunks16]
  simp

theorem chunks16_ne_nil {l : List Byte} (h : l ≠ []) : chunks16 l ≠ [] := by
  rw [chunks16]
  simp [h]

theorem chunks16_append {l : List Byte} (h : l.length = 16) (rest : List Byte) :
    chunks16 (l ++ rest) = l :: chunks16 rest := by
  have hln : l ≠ [] := by
    intro hc
    rw [hc] at h
    simp at h
  have hne : l ++ rest ≠ [] := by
    intro hc
    rcases List.append_eq_nil.mp hc with ⟨hl, -⟩
    exact hln hl
  rw [chunks16]
  rw [dif_neg hne, List.take_left' h, List.drop_left' h]

theorem chunks16_flatten {bs : List (List Byte)} (h : ∀ b ∈ bs, b.length = 16) :
    chunks16 bs.flatten = bs := by
  induction bs with
  | nil => exact chunks16_nil
  | cons b bs ih =>
    rw [List.flatten_cons, chunks16_append (h b (by simp))]
    rw [ih (fun x hx => h x (by simp [hx]))]

theorem flatten_chunks16_aux : ∀ (n : Nat) (l : List Byte), l.length ≤ n →
    (chunks16 l).flatten = l := by
  intro n
  induction n with
  | zero =>
    intro l hl
    have : l = [] := List.length_eq_zero.mp (by omega)
    subst this
    rw [chunks16_nil]
    rfl
  | succ n ih =>
    intro l hl
    by_cases hl0 : l = []
    · subst hl0; rw [chunks16_nil]; rfl
    · rw [chunks16, dif_neg hl0, List.flatten_cons]
      have hpos : 0 < l.length := List.length_pos.mpr hl0
      have hd : (l.drop 16).length ≤ n := by
        rw [List.length_drop]; omega
      rw [ih _ hd, List.take_append_drop]

theorem flatten_chunks16 (l : List Byte) : (chunks16 l).flatten = l :=
  flatten_chunks16_aux l.length l (Nat.le_refl _)

theorem chunks16_blocks_aux : ∀ (n : Nat) (l : List Byte), l.length ≤ n →
    l.length % 16 = 0 → ∀ b ∈ chunks16 l, b.length = 16 := by
  intro n
  induction n with
  | zero =>
    intro l hl _
    have : l = [] := List.length_eq_zero.mp (by omega)
    subst this
    rw [chunks16_nil]
    simp
  | succ n ih =>
    intro l hl hmod
    by_cases hl0 : l = []
    · subst hl0; rw [chunks16_nil]; simp
    · rw [chunks16, dif_neg hl0]
      have hpos : 0 < l.length := List.length_pos.mpr hl0
      have h16 : 16 ≤ l.length := by omega
      intro b hb
      rcases List.mem_cons.mp hb with rfl | hb
      · rw [List.length_take]; omega
      · have hd : (l.drop 16).length ≤ n := by
          rw [List.length_drop]; omega
        have hmod2 : (l.drop 16).length % 16 = 0 := by
          rw [List.length_drop]; omega
        exact ih _ hd hmod2 b hb

theorem chunks16_blocks {l : List Byte} (hmod : l.length % 16 = 0) :
    ∀ b ∈ chunks16 l, b.length = 16 :=
  chunks16_blocks_aux l.length l (Nat.le_refl _) hmod

theorem flatten_blocks_length {bs : List (List Byte)} (h : ∀ b ∈ bs, b.length = 16) :
    bs.flatten.length = 16 * bs.length := by
  induction bs with
  | nil => rfl
  | cons b bs ih =>
    rw [List.flatten_cons, List.length_append, h b (by simp),
      ih (fun x hx => h x (by simp [hx])), List.length_cons]
    ring

theorem zipXor_length (a b : List Byte) :
    (zipXor a b).length = min a.length b.length := by
  simp [zipXor]

theorem zipXor_cancel : ∀ {a p : List Byte}, a.length = p.length →
    zipXor (zipXor a p) p = a := by
  intro a
  induction a with
  | nil => intro p h; simp [zipXor]
  | cons x a ih =>
    intro p h
    cases p with
    | nil => simp at h
    | cons y p =>
      simp only [zipXor, List.zipWith_cons_cons, List.cons.injEq]
      constructor
      · apply Fin.ext
        simp only []
        rw [Nat.xor_assoc, Nat.xor_self, Nat.xor_zero]
      · exact ih (by simpa using h)

theorem cbcEnc_length (E : List Byte → List Byte) :
    ∀ (bs : List (List Byte)) (prev : List Byte), (cbcEnc E prev bs).length = bs.length := by
  intro bs
  induction bs with
  | nil => intro prev; rfl
  | cons b bs ih => intro prev; simp [cbcEnc, ih]

theorem cbcEnc_blocks_length (E : List Byte → List Byte)
    (hE : ∀ b, b.length = 16 → (E b).length = 16) :
    ∀ (bs : List (List Byte)) (prev : List Byte), prev.length = 16 →
      (∀ b ∈ bs, b.length = 16) → ∀ c ∈ cbcEnc E prev bs, c.length = 16 := by
  intro bs
  induction bs with
  | nil => intro prev _ _ c hc; simp [cbcEnc] at hc
  | cons b bs ih =>
    intro prev hprev hall c hc
    have hb : b.length = 16 := hall b (by simp)
    have hxor : (zipXor b prev).length = 16 := by
      rw [zipXor_length, hb, hprev]; simp
    have hEb : (E (zipXor b prev)).length = 16 := hE _ hxor
    rcases List.mem_cons.mp hc with rfl | hc
    · exact hEb
    · exact ih _ hEb (fun x hx => hall x (by simp [hx])) c hc

theorem cbcDec_cbcEnc (E D : List Byte → List Byte)
    (hE : ∀ b, b.length = 16 → (E b).length = 16)
    (hD : ∀ b, b.length = 16 → D (E b) = b) :
    ∀ (bs : List (List Byte)) (prev : List Byte), prev.length = 16 →
      (∀ b ∈ bs, b.length = 16) → cbcDec D prev (cbcEnc E prev bs) = bs := by
  intro bs
  induction bs with
  | nil => intro prev _ _; rfl
  | cons b bs ih =>
    intro prev hprev hall
    have hb : b.length = 16 := hall b (by simp)
    have hxor : (zipXor b prev).length = 16 := by
      rw [zipXor_length, hb, hprev]; simp
    simp only [cbcEnc, cbcDec, List.cons.injEq]
    constructor
    · rw [hD _ hxor]
      exact zipXor_cancel (by rw [hb, hprev])
    · exact ih _ (hE _ hxor) (fun x hx => hall x (by simp [hx]))

/-! ## The encrypt and decrypt round trip -/

theorem encrypt_eq (E : List Byte → List Byte) {text : List Byte} (iv : List Byte)
    (h : text ≠ []) :
    encrypt E text iv =
      .ok (bytesToHex iv ++ ':' :: bytesToHex (cbcEnc E iv (chunks16 (pad16 text))).flatten) := by
  simp [encrypt, h]

theorem decrypt_encrypt_aux (E D : List Byte → List Byte)
    (hE : ∀ b, b.length = 16 → (E b).length = 16)
    (hD : ∀ b, b.length = 16 → D (E b) = b)
    (text iv : List Byte) (hiv : iv.length = 16) :
    decrypt D (bytesToHex iv ++ ':' :: bytesToHex (cbcEnc E iv (chunks16 (pad16 text))).flatten) =
      .ok text := by
  have hblocks16 : ∀ b ∈ chunks16 (pad16 text), b.length = 16 :=
    chunks16_blocks (pad16_mod text)
  have hctblocks : ∀ c ∈ cbcEnc E iv (chunks16 (pad16 text)), c.length = 16 :=
    cbcEnc_blocks_length E hE _ iv hiv hblocks16
  have hctlen : (cbcEnc E iv (chunks16 (pad16 text))).flatten.length =
      16 * (chunks16 (pad16 text)).length := by
    rw [flatten_blocks_length hctblocks, cbcEnc_length]
  have hblen : 0 < (chunks16 (pad16 text)).length :=
    List.length_pos.mpr (chunks16_ne_nil (pad16_ne_nil text))
  have hctnil : (cbcEnc E iv (chunks16 (pad16 text))).flatten ≠ [] := by
    intro hc
    rw [hc] at hctlen
    simp only [List.length_nil] at hctlen
    omega
  have hivne : iv ≠ [] := by
    intro hc
    rw [hc] at hiv
    simp at hiv
  have hmem : ':' ∈ bytesToHex iv ++ ':' :: bytesToHex (cbcEnc E iv (chunks16 (pad16 text))).flatten :=
    List.mem_append_right _ (List.mem_cons_self _ _)
  have hsplit : splitOnColon
      (bytesToHex iv ++ ':' :: bytesToHex (cbcEnc E iv (chunks16 (pad16 text))).flatten) =
      [bytesToHex iv, bytesToHex (cbcEnc E iv (chunks16 (pad16 text))).flatten] := by
    rw [splitOnColon_append (colon_notMem_bytesToHex iv),
      splitOnColon_of_not_mem (colon_notMem_bytesToHex _)]
  have h0 : ¬ (bytesToHex iv ++ ':' :: bytesToHex (cbcEnc E iv (chunks16 (pad16 text))).flatten = [] ∨
      ':' ∉ bytesToHex iv ++ ':' :: bytesToHex (cbcEnc E iv (chunks16 (pad16 text))).flatten) := by
    push_neg
    refine ⟨?_, hmem⟩
    intro hc
    rw [hc] at hmem
    exact List.not_mem_nil _ hmem
  have h1 : ¬ (bytesToHex iv = [] ∨
      bytesToHex (cbcEnc E iv (chunks16 (pad16 text))).flatten = []) := by
    push_neg
    exact ⟨bytesToHex_ne_nil hivne, bytesToHex_ne_nil hctnil⟩
  have hch : chunks16 (cbcEnc E iv (chunks16 (pad16 text))).flatten =
      cbcEnc E iv (chunks16 (pad16 text)) := chunks16_flatten hctblocks
  simp only [decrypt, hsplit, List.getD_cons_zero, List.getD_cons_succ, if_neg h0, if_neg h1,
    hexToBytes_bytesToHex, hiv, hch]
  rw [if_neg (by omega : ¬ (16 : Nat) ≠ 16)]
  rw [if_neg (by push_neg; exact ⟨hctnil, by rw [hctlen]; simp [Nat.mul_mod_right]⟩)]
  rw [cbcDec_cbcEnc E D hE hD _ iv hiv hblocks16, flatten_chunks16, unpad16_pad16]

/-! ## Helper lemmas for secureCompare and comparePassword -/

theorem natOr_eq_zero {x y : Nat} : x ||| y = 0 ↔ x = 0 ∧ y = 0 := by
  constructor
  · intro h
    have hb : ∀ i, x.testBit i = false ∧ y.testBit i = false := by
      intro i
      have hco := congrArg (fun z => Nat.testBit z i) h
      simp only [Nat.testBit_or, Nat.zero_testBit, Bool.or_eq_false_iff] at hco
      exact hco
    constructor
    · exact Nat.eq_of_testBit_eq (fun i => by simp [(hb i).1])
    · exact Nat.eq_of_testBit_eq (fun i => by simp [(hb i).2])
  · rintro ⟨rfl, rfl⟩
    rfl

theorem foldl_or_eq_zero : ∀ (l : List Nat) (init : Nat),
    l.foldl (fun r x => r ||| x) init = 0 ↔ init = 0 ∧ ∀ x ∈ l, x = 0 := by
  intro l
  induction l with
  | nil => intro init; simp
  | cons a l ih =>
    intro init
    rw [List.foldl_cons, ih]
    constructor
    · rintro ⟨h1, h2⟩
      rcases natOr_eq_zero.mp h1 with ⟨hi, ha⟩
      refine ⟨hi, ?_⟩
      intro x hx
      rcases List.mem_cons.mp hx with rfl | hx
      · exact ha
      · exact h2 x hx
    · rintro ⟨hi, h2⟩
      exact ⟨natOr_eq_zero.mpr ⟨hi, h2 a (by simp)⟩, fun x hx => h2 x (by simp [hx])⟩

theorem zipWith_xor_all_zero : ∀ {a b : List Nat}, a.length = b.length →
    ((∀ x ∈ List.zipWith (fun x y => x ^^^ y) a b, x = 0) ↔ a = b) := by
  intro a
  induction a with
  | nil =>
    intro b h
    cases b
    · simp
    · simp at h
  | cons x a ih =>
    intro b h
    cases b with
    | nil => simp at h
    | cons y b =>
      simp only [List.zipWith_cons_cons, List.mem_cons, List.cons.injEq]
      constructor
      · intro hall
        have hx : x ^^^ y = 0 := hall _ (Or.inl rfl)
        exact ⟨Nat.xor_eq_zero.mp hx,
          (ih (by simpa using h)).mp (fun z hz => hall z (Or.inr hz))⟩
      · rintro ⟨rfl, hab⟩
        intro z hz
        rcases hz with rfl | hz
        · exact Nat.xor_self x
        · exact (ih (by simpa using h)).mpr hab z hz

/-! ## Claim theorems -/

/-- C1: for every non-empty plaintext P (as UTF-8 bytes), decrypting the
blob produced by encrypt on P returns exactly P, for any 16-byte IV
that encrypt may draw; the AES-256 block cipher is abstracted as any
pair of length-preserving mutually inverse block maps. -/
theorem C1_encrypt_decrypt_roundtrip (E D : List Byte → List Byte)
    (hE : ∀ b, b.length = 16 → (E b).length = 16)
    (hD : ∀ b, b.length = 16 → D (E b) = b)
    (P iv : List Byte) (hP : P ≠ []) (hiv : iv.length = 16) :
    ∃ blob, encrypt E P iv = .ok blob ∧ decrypt D blob = .ok P :=
  ⟨_, encrypt_eq E iv hP, decrypt_encrypt_aux E D hE hD P iv hiv⟩

/-- Witness for C1 at the one-byte plaintext 0x31 and the all-zero IV,
with the identity block cipher. -/
theorem C1_encrypt_decrypt_roundtrip_witness :
    decrypt (fun b => b)
      ((encrypt (fun b => b) [(49 : Byte)] (List.replicate 16 (0 : Byte))).toOption.getD []) =
      .ok [(49 : Byte)] := by
  obtain ⟨blob, henc, hdec⟩ := C1_encrypt_decrypt_roundtrip (fun b => b) (fun b => b)
    (fun b hb => hb) (fun b _ => rfl) [(49 : Byte)] (List.replicate 16 (0 : Byte))
    (by decide) (by decide)
  rw [henc]
  simpa using hdec

/-- C7: two encrypt calls on the same non-empty plaintext with the two
distinct random IVs they draw produce different blobs, and both blobs
decrypt back to the plaintext. -/
theorem C7_encrypt_nondeterminism (E D : List Byte → List Byte)
    (hE : ∀ b, b.length = 16 → (E b).length = 16)
    (hD : ∀ b, b.length = 16 → D (E b) = b)
    (P iv1 iv2 : List Byte) (hP : P ≠ [])
    (h1 : iv1.length = 16) (h2 : iv2.length = 16) (hne : iv1 ≠ iv2) :
    encrypt E P iv1 ≠ encrypt E P iv2 ∧
    (∀ blob, encrypt E P iv1 = .ok blob → decrypt D blob = .ok P) ∧
    (∀ blob, encrypt E P iv2 = .ok blob → decrypt D blob = .ok P) := by
  refine ⟨?_, ?_, ?_⟩
  · rw [encrypt_eq E iv1 hP, encrypt_eq E iv2 hP]
    intro hc
    have hlists := Except.ok.inj hc
    have hlen : (bytesToHex iv1).length = (bytesToHex iv2).length := by
      rw [bytesToHex_length, bytesToHex_length, h1, h2]
    have hpre := (List.append_inj hlists hlen).1
    apply hne
    have := congrArg hexToBytes hpre
    rwa [hexToBytes_bytesToHex, hexToBytes_bytesToHex] at this
  · intro blob hb
    rw [encrypt_eq E iv1 hP] at hb
    have hlists := Except.ok.inj hb
    rw [← hlists]
    exact decrypt_encrypt_aux E D hE hD P iv1 h1
  · intro blob hb
    rw [encrypt_eq E iv2 hP] at hb
    have hlists := Except.ok.inj hb
    rw [← hlists]
    exact decrypt_encrypt_aux E D hE hD P iv2 h2

/-- Witness for C7 at the one-byte plaintext 0x31 with the all-zero and
the one-one IVs, with the identity block cipher. -/
theorem C7_encrypt_nondeterminism_witness :
    encrypt (fun b => b) [(49 : Byte)] (List.replicate 16 (0 : Byte)) ≠
      encrypt (fun b => b) [(49 : Byte)] (List.replicate 16 (1 : Byte)) := by
  exact (C7_encrypt_nondeterminism (fun b => b) (fun b => b)
    (fun b hb => hb) (fun b _ => rfl) [(49 : Byte)]
    (List.replicate 16 (0 : Byte)) (List.replicate 16 (1 : Byte))
    (by decide) (by decide) (by decide) (by decide)).1

/-- C4 as amended: decrypt fails with the format error, without ever
consulting the block cipher, exactly when the input contains no colon
at all (this covers the empty input); an input containing a colon,
including one with two or more colons, is never rejected with the
format error (its failures, if any, surface as the decryption error
from inside the try block). -/
theorem C4_decrypt_format_guard (D : List Byte → List Byte) (blob : List Char) :
    (':' ∉ blob → decrypt D blob = .error .formatError) ∧
    (':' ∈ blob → decrypt D blob ≠ .error .formatError) := by
  constructor
  · intro h
    simp [decrypt, h]
  · intro h hc
    have hne : blob ≠ [] := by
      intro h0
      rw [h0] at h
      exact List.not_mem_nil _ h
    simp only [decrypt] at hc
    rw [if_neg (by push_neg; exact ⟨hne, h⟩)] at hc
    split at hc
    · exact CryptErr.noConfusion ((Except.error.injEq _ _).mp hc)
    · split at hc
      · exact CryptErr.noConfusion ((Except.error.injEq _ _).mp hc)
      · split at hc
        · exact CryptErr.noConfusion ((Except.error.injEq _ _).mp hc)
        · split at hc
          · exact Except.noConfusion hc
          · exact CryptErr.noConfusion ((Except.error.injEq _ _).mp hc)

/-- Witness for C4 at a colon-free input and at a two-colon input. -/
theorem C4_decrypt_format_guard_witness :
    decrypt (fun b => b) (String.toList "deadbeef") = .error .formatError ∧
    decrypt (fun b => b) (String.toList "aa:bb:cc") ≠ .error .formatError := by
  exact ⟨(C4_decrypt_format_guard (fun b => b) (String.toList "deadbeef")).1 (by decide),
    (C4_decrypt_format_guard (fun b => b) (String.toList "aa:bb:cc")).2 (by decide)⟩

/-- Counterexample for C4 as stated: the input aa:bb:cc does not contain
exactly one colon (it contains two), yet decrypt does not fail with the
format error; the format guard is passed, decryption is attempted on
the first two segments and fails with the decryption error instead. -/
theorem C4_decrypt_format_guard_counterexample :
    (String.toList "aa:bb:cc").count ':' = 2 ∧
    decrypt (fun b => b) (String.toList "aa:bb:cc") = .error .decryptionError := by
  exact ⟨by decide, rfl⟩

/-- C10: the pre-save transformation encrypts the aadhaarNumber field
only when the stored value does not already contain a colon, so a
value it has produced once is left unchanged by any later application
(even with a different cipher, encoding or IV): encryption is never
applied twice. -/
theorem C10_presave_aadhaar_idempotent (E E2 : List Byte → List Byte)
    (enc enc2 : List Char → List Byte) (iv iv2 : List Byte) (a b : List Char)
    (h : preSaveAadhaar E enc iv a = .ok b) :
    preSaveAadhaar E2 enc2 iv2 b = .ok b := by
  unfold preSaveAadhaar at h ⊢
  by_cases hc : ':' ∈ a
  · rw [if_pos hc] at h
    have hab := Except.ok.inj h
    subst hab
    rw [if_pos hc]
  · rw [if_neg hc] at h
    by_cases he : enc a = []
    · rw [encrypt, if_pos he] at h
      exact absurd h (by simp)
    · rw [encrypt_eq E iv he] at h
      have hb := Except.ok.inj h
      subst hb
      rw [if_pos (List.mem_append_right _ (List.mem_cons_self _ _))]

/-- Witness for C10 at a twelve-digit aadhaar value with the identity
cipher, a char-code encoding and the all-zero IV. -/
theorem C10_presave_aadhaar_idempotent_witness :
    preSaveAadhaar (fun b => b) (fun cs => cs.map (fun c => (⟨c.toNat % 256, by omega⟩ : Byte)))
      (List.replicate 16 (0 : Byte))
      ((preSaveAadhaar (fun b => b) (fun cs => cs.map (fun c => (⟨c.toNat % 256, by omega⟩ : Byte)))
        (List.replicate 16 (0 : Byte)) (String.toList "123456789012")).toOption.getD []) =
    .ok ((preSaveAadhaar (fun b => b) (fun cs => cs.map (fun c => (⟨c.toNat % 256, by omega⟩ : Byte)))
        (List.replicate 16 (0 : Byte)) (String.toList "123456789012")).toOption.getD []) := by
  apply C10_presave_aadhaar_idempotent (fun b => b)
    (fun b => b) (fun cs => cs.map (fun c => (⟨c.toNat % 256, by omega⟩ : Byte)))
    (fun cs => cs.map (fun c => (⟨c.toNat % 256, by omega⟩ : Byte)))
    (List.replicate 16 (0 : Byte)) (List.replicate 16 (0 : Byte)) (String.toList "123456789012")
  rfl

/-- C8: comparePassword is a total boolean function (it never throws);
it returns true exactly when both inputs are non-empty and the bcrypt
primitive reports a match, so empty or malformed inputs and every
mismatch or bcrypt failure yield false. -/
theorem C8_comparePassword_total_spec (bc : List Char → List Char → Except Unit Bool)
    (password hashedPassword : List Char) :
    comparePassword bc password hashedPassword = true ↔
      password ≠ [] ∧ hashedPassword ≠ [] ∧ bc password hashedPassword = .ok true := by
  unfold comparePassword
  by_cases h : password = [] ∨ hashedPassword = []
  · rw [if_pos h]
    simp only [Bool.false_eq_true, false_iff]
    rintro ⟨hp, hh, -⟩
    rcases h with h | h
    · exact hp h
    · exact hh h
  · push_neg at h
    rw [if_neg (by push_neg; exact h)]
    cases hbc : bc password hashedPassword with
    | ok v => cases v <;> simp [h.1, h.2, hbc]
    | error e => simp [h.1, h.2, hbc]

/-- C9: secureCompare returns true exactly when its two arguments are
equal and non-empty; in particular two empty strings compare false
even though they are equal, and any call with an empty argument or
different lengths returns false. -/
theorem C9_secureCompare_iff (a b : List Nat) :
    secureCompare a b = true ↔ a = b ∧ a ≠ [] := by
  unfold secureCompare
  by_cases h : a = [] ∨ b = [] ∨ a.length ≠ b.length
  · rw [if_pos h]
    simp only [Bool.false_eq_true, false_iff]
    rintro ⟨rfl, hne⟩
    rcases h with h | h | h
    · exact hne h
    · exact hne h
    · exact h rfl
  · push_neg at h
    obtain ⟨ha, hb, hlen⟩ := h
    rw [if_neg (by push_neg; exact ⟨ha, hb, hlen⟩)]
    rw [decide_eq_true_eq, foldl_or_eq_zero]
    constructor
    · rintro ⟨-, hall⟩
      exact ⟨(zipWith_xor_all_zero hlen).mp hall, ha⟩
    · rintro ⟨rfl, -⟩
      exact ⟨rfl, (zipWith_xor_all_zero hlen).mpr rfl⟩

/-- C2: starting Unlocked with zero failed attempts on an active
account, five consecutive failed login attempts transition the account
to Locked with lockUntil two hours after the fifth attempt, and any
further attempt made while the clock is strictly before lockUntil is
rejected with the account-locked outcome, leaving the record unchanged
(the counter is not incremented) and independently of the
password-check outcome (password verification is not consulted). -/
theorem C2_lockout_threshold (t1 t2 t3 t4 t5 t6 : Nat) (pwOk : Bool)
    (h6 : t6 < t5 + lockDuration) :
    failStep t5 (failStep t4 (failStep t3 (failStep t2 (failStep t1
        { loginAttempts := 0, lockUntil := none, status := Status.active })))) =
      { loginAttempts := 5, lockUntil := some (t5 + lockDuration), status := Status.active } ∧
    login { loginAttempts := 5, lockUntil := some (t5 + lockDuration), status := Status.active }
        pwOk t6 =
      (.locked,
        { loginAttempts := 5, lockUntil := some (t5 + lockDuration), status := Status.active }) := by
  have s1 : ∀ t, failStep t { loginAttempts := 0, lockUntil := none, status := Status.active } =
      { loginAttempts := 1, lockUntil := none, status := Status.active } := fun t => rfl
  have s2 : ∀ t, failStep t { loginAttempts := 1, lockUntil := none, status := Status.active } =
      { loginAttempts := 2, lockUntil := none, status := Status.active } := fun t => rfl
  have s3 : ∀ t, failStep t { loginAttempts := 2, lockUntil := none, status := Status.active } =
      { loginAttempts := 3, lockUntil := none, status := Status.active } := fun t => rfl
  have s4 : ∀ t, failStep t { loginAttempts := 3, lockUntil := none, status := Status.active } =
      { loginAttempts := 4, lockUntil := none, status := Status.active } := fun t => rfl
  have s5 : ∀ t, failStep t { loginAttempts := 4, lockUntil := none, status := Status.active } =
      { loginAttempts := 5, lockUntil := some (t + lockDuration), status := Status.active } :=
    fun t => rfl
  have hl : isLocked { loginAttempts := 5, lockUntil := some (t5 + lockDuration), status := Status.active } t6 = true := by
    simp [isLocked]
    omega
  exact ⟨by rw [s1, s2, s3, s4, s5], by simp [login, hl]⟩

/-- Witness for C2 with all five failures at time 0 and a sixth attempt
with a correct password at time 1. -/
theorem C2_lockout_threshold_witness :
    failStep 0 (failStep 0 (failStep 0 (failStep 0 (failStep 0
        { loginAttempts := 0, lockUntil := none, status := Status.active })))) =
      { loginAttempts := 5, lockUntil := some (0 + lockDuration), status := Status.active } ∧
    login { loginAttempts := 5, lockUntil := some (0 + lockDuration), status := Status.active }
        true 1 =
      (.locked,
        { loginAttempts := 5, lockUntil := some (0 + lockDuration), status := Status.active }) :=
  C2_lockout_threshold 0 0 0 0 0 1 true (by decide)

/-- C5 as amended: for an account in the Locked state (positive attempt
counter, lock timestamp present) with active status, an authentication
attempt made strictly after lockUntil proceeds to normal password
verification: a correct password leaves the counter at 0 with the lock
cleared, and a wrong password leaves the counter at 1 with no lock.
At the exact boundary time now = lockUntil the account is also treated
as not locked, but a wrong password then increments the counter past
the threshold and sets a fresh lock instead (see the counterexample). -/
theorem C5_auto_unlock (u : UserRec) (L now : Nat)
    (hL : u.lockUntil = some L) (hexp : L < now) (hact : u.status = Status.active)
    (hatt : 0 < u.loginAttempts) :
    login u true now =
      (.success, { loginAttempts := 0, lockUntil := none, status := u.status }) ∧
    login u false now =
      (.wrongPassword, { loginAttempts := 1, lockUntil := none, status := u.status }) := by
  have hnl : isLocked u now = false := by
    simp [isLocked, hL]
    omega
  constructor
  · simp [login, hnl, hact, hatt, resetLoginAttempts]
  · simp [login, hnl, hact, incLoginAttempts, hL, hexp]

/-- Witness for C5 at a locked record whose lock expired at time 0, with
an attempt at time 1. -/
theorem C5_auto_unlock_witness :
    login { loginAttempts := 5, lockUntil := some 0, status := Status.active } true 1 =
      (.success, { loginAttempts := 0, lockUntil := none, status := Status.active }) ∧
    login { loginAttempts := 5, lockUntil := some 0, status := Status.active } false 1 =
      (.wrongPassword, { loginAttempts := 1, lockUntil := none, status := Status.active }) :=
  C5_auto_unlock { loginAttempts := 5, lockUntil := some 0, status := Status.active } 0 1
    rfl (by decide) rfl (by decide)

/-- Counterexample for C5 as stated: at the boundary time now equal to
lockUntil the claim requires a wrong password to leave one failed
attempt and no lock, but incLoginAttempts only restarts the counter
when the lock is strictly in the past, so the counter is pushed to 6
and a fresh two-hour lock is set. -/
theorem C5_auto_unlock_counterexample :
    login { loginAttempts := 5, lockUntil := some 1000, status := Status.active } false 1000 =
      (.wrongPassword,
        { loginAttempts := 6, lockUntil := some (1000 + lockDuration), status := Status.active }) ∧
    (login { loginAttempts := 5, lockUntil := some 1000, status := Status.active } false 1000).2 ≠
      { loginAttempts := 1, lockUntil := none, status := Status.active } :=
  ⟨rfl, by decide⟩

/-- C3: the two failing login responses share the HTTP status 401 but
carry different messages, so the login result does reveal whether the
email exists; an unknown email answers Invalid email or password while
a wrong password on an existing active account answers Incorrect
Password!. -/
theorem C3_login_error_distinguishes (now : Nat) (pwOk : Bool) (u : UserRec)
    (hact : u.status = Status.active) (hnl : isLocked u now = false) :
    (loginFlow none pwOk now).1 = .notFound ∧
    (loginFlow (some u) false now).1 = .wrongPassword ∧
    statusCodeOf .notFound = statusCodeOf .wrongPassword ∧
    messageOf .notFound ≠ messageOf .wrongPassword := by
  refine ⟨rfl, ?_, rfl, by decide⟩
  simp [loginFlow, login, hnl, hact]

/-- Witness for C3 at a fresh active account and time 0. -/
theorem C3_login_error_distinguishes_witness :
    (loginFlow none false 0).1 = .notFound ∧
    (loginFlow (some { loginAttempts := 0, lockUntil := none, status := Status.active })
        false 0).1 = .wrongPassword ∧
    statusCodeOf .notFound = statusCodeOf .wrongPassword ∧
    messageOf .notFound ≠ messageOf .wrongPassword :=
  C3_login_error_distinguishes 0 false
    { loginAttempts := 0, lockUntil := none, status := Status.active } rfl rfl

/-- C6 as amended: a refresh token presented to access-token
verification before its expiry is rejected with the token-invalid
error (audience mismatch), an access token presented to
refresh-token verification before its expiry is likewise rejected with
the token-invalid error, and refresh verification only succeeds on
tokens whose type claim equals refresh.  A token presented at or after
its expiry is instead rejected with the token-expired error, because
the jsonwebtoken verify routine checks expiry before audience (see the
counterexample). -/
theorem C6_token_scoping (uid em : String) (now now2 : Nat) :
    (now2 < (generateRefreshToken uid now).claims.exp →
      verifyToken (generateRefreshToken uid now) now2 = .error .invalid) ∧
    (now2 < (generateToken uid em now).claims.exp →
      verifyRefreshToken (generateToken uid em now) now2 = .error .invalid) ∧
    (∀ t c, verifyRefreshToken t now2 = .ok c → c.type = some "refresh") := by
  refine ⟨?_, ?_, ?_⟩
  · intro h
    simp only [generateRefreshToken] at h
    have hj : jwtVerify (generateRefreshToken uid now) jwtSecret "lenden-app" "lenden-users"
        now2 = .error .invalid := by
      unfold jwtVerify generateRefreshToken
      rw [if_neg (by simp)]
      rw [if_neg (by simp; omega)]
      rw [if_pos (by simp)]
    simp [verifyToken, hj]
  · intro h
    simp only [generateToken] at h
    have hj : jwtVerify (generateToken uid em now) jwtSecret "lenden-app" "lenden-refresh"
        now2 = .error .invalid := by
      unfold jwtVerify generateToken
      rw [if_neg (by simp)]
      rw [if_neg (by simp; omega)]
      rw [if_pos (by simp)]
    simp [verifyRefreshToken, hj]
  · intro t c hok
    unfold verifyRefreshToken at hok
    cases hj : jwtVerify t jwtSecret "lenden-app" "lenden-refresh" now2 with
    | ok c2 =>
      simp only [hj] at hok
      by_cases ht : c2.type = some "refresh"
      · rw [if_pos ht] at hok
        have hcc := Except.ok.inj hok
        subst hcc
        exact ht
      · rw [if_neg ht] at hok
        exact Except.noConfusion hok
    | error e =>
      simp only [hj] at hok
      cases e <;> exact Except.noConfusion hok

/-- Witness for C6 with tokens issued at time 0 and presented at time 1. -/
theorem C6_token_scoping_witness :
    verifyToken (generateRefreshToken "u" 0) 1 = .error .invalid ∧
    verifyRefreshToken (generateToken "u" "e" 0) 1 = .error .invalid ∧
    (generateRefreshToken "u" 0).claims.type = some "refresh" := by
  obtain ⟨ha, hb, hc⟩ := C6_token_scoping "u" "e" 0 1
  exact ⟨ha (by decide), hb (by decide), hc (generateRefreshToken "u" 0) _ rfl⟩

/-- Counterexample for C6 as stated: a refresh token presented to
access-token verification at its expiry time is rejected with the
token-expired error, not the token-invalid error, because expiry is
checked before the audience. -/
theorem C6_token_scoping_counterexample :
    verifyToken (generateRefreshToken "u" 0) 604800 = .error .expired ∧
    TokenErr.expired ≠ TokenErr.invalid :=
  ⟨rfl, by decide⟩

end LenDen
